import Mathlib

/-!
Verification of the codepen-puppeteer pen acquisition pipeline.

JavaScript strings are modelled as lists of character codes (`List Nat`),
which matches the code-unit view the source's regexes and `String.replace`
operate on.  Pure fragments of `index.js` (the filename normalizer, the
template substitution chain, the index generation and the skip-if-exists
download loop) are translated into executable Lean definitions; the
filesystem is an explicit association list, and browser navigation is
recorded as an explicit event list so that "no extraction happened" is
expressible.
-/

abbrev Str := List Nat

/-- Character codes of a Lean string literal (used only to write inputs). -/
def str (s : String) : Str := s.data.map Char.toNat

/-- JavaScript `String.prototype.trim` whitespace class (WhiteSpace ∪ LineTerminator). -/
def jsSpace (n : Nat) : Bool :=
  decide (n = 9 ∨ n = 10 ∨ n = 11 ∨ n = 12 ∨ n = 13 ∨ n = 32 ∨ n = 160 ∨ n = 5760 ∨
    (8192 ≤ n ∧ n ≤ 8202) ∨ n = 8232 ∨ n = 8233 ∨ n = 8239 ∨ n = 8287 ∨ n = 12288 ∨ n = 65279)

/-- The character class `[a-z0-9]` with the `i` flag, i.e. `[A-Za-z0-9]`. -/
def isAlnumCode (n : Nat) : Bool :=
  decide ((65 ≤ n ∧ n ≤ 90) ∨ (97 ≤ n ∧ n ≤ 122) ∨ (48 ≤ n ∧ n ≤ 57))

/-- `s.trim()`. -/
def jsTrim (l : Str) : Str :=
  ((l.dropWhile jsSpace).reverse.dropWhile jsSpace).reverse

/-- `.replace(/[^a-z0-9]/gi, '-')`: every character outside `[A-Za-z0-9]`
becomes a `'-'` (code 45). -/
def dashify (l : Str) : Str := l.map (fun c => if isAlnumCode c then c else 45)

/-- The source's second replace (regex `-+`, global, replacement `-`): each maximal run of dashes collapses to one dash. -/
def collapseDashes : Str → Str
  | [] => []
  | [c] => [c]
  | a :: b :: rest =>
      if a = 45 ∧ b = 45 then collapseDashes (b :: rest)
      else a :: collapseDashes (b :: rest)

/-- The `^-` alternative of the source's third replace (regex `-$|^-`, global, replacement empty): drop one leading dash. -/
def dropLeadDash : Str → Str
  | [] => []
  | c :: t => if c = 45 then t else c :: t

/-- The `-$` alternative of the source's third replace: drop one trailing dash. -/
def dropTrailDash : Str → Str
  | [] => []
  | [c] => if c = 45 then [] else [c]
  | a :: b :: t => a :: dropTrailDash (b :: t)

/-- `.toLowerCase()`.  Only characters in `[A-Za-z0-9-]` reach this step of the
source's chain, and on those Unicode and ASCII lowercasing agree. -/
def lowerCode (n : Nat) : Nat := if 65 ≤ n ∧ n ≤ 90 then n + 32 else n

/-- `titleToFilename` from `index.js` (identical copy in the second entry
script): `trim`, replace non-alphanumerics by `-`, collapse dash runs, strip
one leading and one trailing dash, lowercase, `trim`. -/
def titleToFilename (s : Str) : Str :=
  jsTrim (List.map lowerCode (dropTrailDash (dropLeadDash (collapseDashes (dashify (jsTrim s))))))

/-- Modelled from the spec: "replace every maximal run of characters outside
`[A-Za-z0-9]` with a single `-`" — one dash is emitted per maximal run of
non-alphanumeric characters. -/
def replaceRuns : Str → Str
  | [] => []
  | [c] => if isAlnumCode c then [c] else [45]
  | a :: b :: rest =>
      if isAlnumCode a then a :: replaceRuns (b :: rest)
      else if isAlnumCode b then 45 :: replaceRuns (b :: rest)
      else replaceRuns (b :: rest)

/-- Modelled from the spec: "trim surrounding whitespace; replace every maximal
run of characters outside `[A-Za-z0-9]` with a single `-`; strip a leading or
trailing `-` if present; lowercase the result". -/
def normalizeSpec (s : Str) : Str :=
  List.map lowerCode (dropTrailDash (dropLeadDash (replaceRuns (jsTrim s))))

/-- Output alphabet claimed for slugs: lowercase letters, digits, dash. -/
def goodChar (n : Nat) : Bool :=
  decide ((97 ≤ n ∧ n ≤ 122) ∨ (48 ≤ n ∧ n ≤ 57) ∨ n = 45)

/-- No two adjacent dashes ("single `-` separators"). -/
def noDoubleDash : Str → Bool
  | [] => true
  | [_] => true
  | a :: b :: t => !(a = 45 && b = 45) && noDoubleDash (b :: t)

/-! ### `String.prototype.replace` with a string pattern -/

/-- `needle` is a prefix of `hay`. -/
def leadsWith : Str → Str → Bool
  | [], _ => true
  | _ :: _, [] => false
  | a :: as, b :: bs => decide (a = b) && leadsWith as bs

/-- `hay.indexOf(needle) !== -1`. -/
def occursIn (needle : Str) : Str → Bool
  | [] => leadsWith needle []
  | c :: t => leadsWith needle (c :: t) || occursIn needle t

/-- Split `hay` at the first occurrence of `needle` (the text before the match
and the text after it), `none` when `needle` does not occur. -/
def splitFirst (needle : Str) : Str → Option (Str × Str)
  | [] => if leadsWith needle [] then some ([], []) else none
  | c :: t =>
      if leadsWith needle (c :: t) then some ([], (c :: t).drop needle.length)
      else
        match splitFirst needle t with
        | none => none
        | some (b, a) => some (c :: b, a)

/-- Does the replacement text contain a `$` (code 36)? -/
def hasDollar (l : Str) : Bool := l.any (fun c => decide (c = 36))

/-- The `GetSubstitution` step of `String.prototype.replace` for a string
pattern (no capture groups): in the replacement text, interprets the escapes
for dollar (36 36), the matched text (36 38), the text before the match
(36 96) and the text after the match (36 39); any other character, and any
other use of 36, is literal. -/
def getSubstitution : Str -> Str -> Str -> Str -> Str
  | [], _, _, _ => []
  | [c], _, _, _ => [c]
  | c :: d :: t, m, b, a =>
    if c = 36 then
      if d = 36 then 36 :: getSubstitution t m b a
      else if d = 38 then m ++ getSubstitution t m b a
      else if d = 96 then b ++ getSubstitution t m b a
      else if d = 39 then a ++ getSubstitution t m b a
      else 36 :: getSubstitution (d :: t) m b a
    else c :: getSubstitution (d :: t) m b a

/-- `hay.replace(needle, repl)` with a string pattern: replaces only the first
occurrence, is the identity when the pattern is absent. -/
def jsReplace (hay needle repl : Str) : Str :=
  match splitFirst needle hay with
  | none => hay
  | some (b, a) => b ++ getSubstitution repl needle b a ++ a

/-! ### Template renderer (step 3.g of `download`) and index generation -/

/-- The recognized pen-template tokens (`\x7b` is `{`, `\x7d` is `}`). -/
def tokHtml : Str := str "\x7b\x7bhtml\x7d\x7d"

def tokTitle : Str := str "\x7b\x7btitle\x7d\x7d"

def tokUrl : Str := str "\x7b\x7burl\x7d\x7d"

def tokStyle : Str := str "\x7b\x7bstyle\x7d\x7d"

def tokJavascript : Str := str "\x7b\x7bjavascript\x7d\x7d"

def tokResJs : Str := str "\x7b\x7bresources.javascript\x7d\x7d"

def tokResCss : Str := str "\x7b\x7bresources.style\x7d\x7d"

/-- The index-template token. -/
def tokList : Str := str "\x7b\x7blist\x7d\x7d"

/-- `'<script src="' + src + '"></script>'`. -/
def scriptTag (src : Str) : Str := str "<script src=\"" ++ src ++ str "\"></script>"

/-- `'<link rel="stylesheet" href="' + href + '">'`. -/
def linkTag (href : Str) : Str := str "<link rel=\"stylesheet\" href=\"" ++ href ++ str "\">"

/-- `Array.prototype.join('\n')` (10 is the newline code). -/
def joinNl : List Str → Str
  | [] => []
  | [x] => x
  | x :: y :: t => x ++ 10 :: joinNl (y :: t)

/-- A search-result entry: `{title, url}`. -/
structure PenRef where
  title : Str
  url : Str
deriving DecidableEq

/-- The observable state of one pen's detail page, as the two `evaluate`
calls of `download` see it: the up-to-three CodeMirror editors appear in the
DOM in the fixed order markup box, style box, script box (an absent box
contributes nothing), plus the external-resource input values. -/
structure PenPage where
  markupEditor : Option Str
  styleEditor : Option Str
  scriptEditor : Option Str
  jsResourceInputs : List Str
  cssResourceInputs : List Str

/-- Step 3.e: `document.querySelectorAll('.code-wrap .CodeMirror')` in DOM
order — a flat list of the editors that are present. -/
def editorValues (p : PenPage) : List Str :=
  [p.markupEditor, p.styleEditor, p.scriptEditor].filterMap id

/-- Step 3.f: keep the trimmed value of each resource input when non-empty. -/
def collectResources (inputs : List Str) : List Str :=
  inputs.filterMap (fun v => if jsTrim v = [] then none else some (jsTrim v))

/-- Step 3.g: the template substitution chain.  `content.getD i []` models
`content[i] ? content[i] : ''` (for strings, `undefined` and `''` both
produce `''`). -/
def renderPen (penTemplate : Str) (pen : PenRef) (content : List Str)
    (resourcesJs resourcesCss : List Str) : Str :=
  jsReplace (jsReplace (jsReplace (jsReplace (jsReplace (jsReplace (jsReplace
    penTemplate tokHtml (content.getD 0 []))
    tokTitle (jsTrim pen.title))
    tokUrl pen.url)
    tokStyle (content.getD 1 []))
    tokJavascript (content.getD 2 []))
    tokResJs (joinNl (resourcesJs.map scriptTag)))
    tokResCss (joinNl (resourcesCss.map linkTag))

/-! ### Filesystem and acquisition pipeline -/

/-- The output directory: an association list from filename to content. -/
abbrev FS := List (Str × Str)

/-- `fs.existsSync`. -/
def existsSync : FS → Str → Bool
  | [], _ => false
  | e :: t, name => decide (e.fst = name) || existsSync t name

/-- `fs.writeFileSync`: overwrite the entry when present, else create it. -/
def writeFileSync : FS → Str → Str → FS
  | [], name, content => [(name, content)]
  | e :: t, name, content =>
      if e.fst = name then (name, content) :: t else e :: writeFileSync t name content

/-- Read a file back (used only in theorem statements). -/
def readFS : FS → Str → Option Str
  | [], _ => none
  | e :: t, name => if e.fst = name then some e.snd else readFS t name

/-- Pipeline state: the output directory, the accumulated `pens` collection,
and the pen urls the browser was told to navigate to. -/
structure RunState where
  fs : FS
  pens : List PenRef
  navs : List Str
deriving DecidableEq

/-- One iteration of the `for (var pen of links)` loop in `download`:
the pen is pushed onto `pens` first (3.a); when `<pensPath><slug>.html`
already exists the iteration stops there (3.b) — no navigation, no write;
otherwise the page is visited, its editors and resources are read
(`site pen.url` is the page the browser finds at that url) and the rendered
document is written. -/
def downloadStep (site : Str → PenPage) (penTemplate pensPath : Str)
    (st : RunState) (pen : PenRef) : RunState :=
  let filename := titleToFilename pen.title ++ str ".html"
  if existsSync st.fs (pensPath ++ filename) then
    { st with pens := st.pens ++ [pen] }
  else
    let page := site pen.url
    let html := renderPen penTemplate pen (editorValues page)
      (collectResources page.jsResourceInputs) (collectResources page.cssResourceInputs)
    { fs := writeFileSync st.fs (pensPath ++ filename) html,
      pens := st.pens ++ [pen],
      navs := st.navs ++ [pen.url] }

/-- `download(links, pens, ...)`: process one page's worth of links. -/
def download (site : Str → PenPage) (penTemplate pensPath : Str)
    (links : List PenRef) (st : RunState) : RunState :=
  links.foldl (downloadStep site penTemplate pensPath) st

/-- One `<a>` entry of the index page, built from the trimmed title. -/
def anchorFor (pen : PenRef) : Str :=
  str "<a href=\"" ++ titleToFilename (jsTrim pen.title) ++ str ".html\" target=\"iframe\">" ++
    jsTrim pen.title ++ str "</a>"

/-- The `list` accumulator of `saveIndex`: `list += anchor` over all pens. -/
def indexList (pens : List PenRef) : Str :=
  pens.foldl (fun acc pen => acc ++ anchorFor pen) []

/-- `saveIndex`: overwrite `<pensPath>index.html` with the index template's
`list` token replaced by the anchors of every pen seen so far. -/
def saveIndex (pens : List PenRef) (pensPath indexTemplate : Str) (fs : FS) : FS :=
  writeFileSync fs (pensPath ++ str "index.html") (jsReplace indexTemplate tokList (indexList pens))

/-- The paginated main loop of `run`: for each page of search results,
download its pens, then regenerate the index from the full collection. -/
def run (site : Str → PenPage) (penTemplate indexTemplate pensPath : Str)
    (pages : List (List PenRef)) (st : RunState) : RunState :=
  pages.foldl (fun st links =>
    let st2 := download site penTemplate pensPath links st
    { st2 with fs := saveIndex st2.pens pensPath indexTemplate st2.fs }) st

/-- Characters that can neither start a template token nor trigger dollar
substitution: not `{` (123) and not `$` (36). -/
def plainChar (c : Nat) : Bool := decide (c ≠ 123 ∧ c ≠ 36)

/-- A string of plain characters. -/
def plainStr (l : Str) : Bool := l.all plainChar


/-- A fixed pen page used for concrete scenarios: all three editors present,
no external resources. -/
def pageW : PenPage := ⟨some (str "m"), some (str "s"), some (str "j"), [], []⟩

/-- A site oracle that serves `pageW` at every url. -/
def siteW : Str → PenPage := fun _ => pageW

/-! ### Normalizer lemmas -/

theorem dropWhile_all_false {p : Nat → Bool} {l : Str} (h : ∀ c ∈ l, p c = false) :
    l.dropWhile p = l := by
  cases l with
  | nil => rfl
  | cons a t =>
      rw [List.dropWhile_cons, h a (by simp)]
      simp

theorem jsTrim_eq_self {l : Str} (h : ∀ c ∈ l, jsSpace c = false) : jsTrim l = l := by
  unfold jsTrim
  rw [dropWhile_all_false h, dropWhile_all_false (by intro c hc; exact h c (by simpa using hc))]
  simp

theorem mem_dashify {c : Nat} {l : Str} (h : c ∈ dashify l) :
    isAlnumCode c = true ∨ c = 45 := by
  unfold dashify at h
  rcases List.mem_map.mp h with ⟨a, _, rfl⟩
  by_cases ha : isAlnumCode a = true
  · left; simp [ha]
  · right; simp [ha]

theorem mem_collapseDashes {c : Nat} : ∀ {l : Str}, c ∈ collapseDashes l → c ∈ l := by
  intro l
  induction l using collapseDashes.induct with
  | case1 => simp [collapseDashes]
  | case2 x => simp [collapseDashes]
  | case3 a b rest h ih =>
      intro hc
      rw [collapseDashes, if_pos h] at hc
      exact List.mem_cons_of_mem a (ih hc)
  | case4 a b rest h ih =>
      intro hc
      rw [collapseDashes, if_neg h] at hc
      rcases List.mem_cons.mp hc with rfl | hc
      · exact List.mem_cons_self _ _
      · exact List.mem_cons_of_mem a (ih hc)

theorem head?_collapseDashes : ∀ (b : Nat) (t : Str), (collapseDashes (b :: t)).head? = some b := by
  intro b t
  induction t generalizing b with
  | nil => rfl
  | cons c t2 ih =>
      by_cases h : b = 45 ∧ c = 45
      · rw [collapseDashes, if_pos h, ih c, h.1, h.2]
      · rw [collapseDashes, if_neg h]
        rfl

theorem noDoubleDash_cons_of {a : Nat} {l : Str} (h1 : noDoubleDash l = true)
    (h2 : ∀ b, l.head? = some b → ¬(a = 45 ∧ b = 45)) : noDoubleDash (a :: l) = true := by
  cases l with
  | nil => rfl
  | cons b t =>
      have hb := h2 b rfl
      unfold noDoubleDash
      simp only [Bool.and_eq_true, Bool.not_eq_true']
      refine ⟨?_, h1⟩
      by_cases hab : a = 45
      · have : ¬ b = 45 := fun hb45 => hb ⟨hab, hb45⟩
        simp [this]
      · simp [hab]

theorem noDoubleDash_collapseDashes (l : Str) : noDoubleDash (collapseDashes l) = true := by
  induction l using collapseDashes.induct with
  | case1 => rfl
  | case2 x => rfl
  | case3 a b rest h ih => rw [collapseDashes, if_pos h]; exact ih
  | case4 a b rest h ih =>
      rw [collapseDashes, if_neg h]
      refine noDoubleDash_cons_of ih ?_
      intro x hx hc
      rw [head?_collapseDashes b rest] at hx
      have hbx : b = x := by simpa using hx
      exact h ⟨hc.1, hbx ▸ hc.2⟩

theorem noDoubleDash_tail {a : Nat} {t : Str} (h : noDoubleDash (a :: t) = true) :
    noDoubleDash t = true := by
  cases t with
  | nil => rfl
  | cons b t2 =>
      unfold noDoubleDash at h
      exact (Bool.and_eq_true _ _ |>.mp h).2

theorem noDoubleDash_head {a b : Nat} {t : Str} (h : noDoubleDash (a :: b :: t) = true) :
    ¬(a = 45 ∧ b = 45) := by
  unfold noDoubleDash at h
  have := (Bool.and_eq_true _ _ |>.mp h).1
  intro hc
  simp [hc.1, hc.2] at this

theorem noDoubleDash_dropLeadDash {l : Str} (h : noDoubleDash l = true) :
    noDoubleDash (dropLeadDash l) = true := by
  cases l with
  | nil => rfl
  | cons c t =>
      by_cases hc : c = 45
      · rw [dropLeadDash, if_pos hc]; exact noDoubleDash_tail h
      · rw [dropLeadDash, if_neg hc]; exact h

theorem head?_dropLeadDash_ne {l : Str} (h : noDoubleDash l = true) :
    (dropLeadDash l).head? ≠ some 45 := by
  cases l with
  | nil => simp [dropLeadDash]
  | cons c t =>
      by_cases hc : c = 45
      · rw [dropLeadDash, if_pos hc]
        cases t with
        | nil => simp
        | cons b t2 =>
            have := noDoubleDash_head h
            intro hb
            have hb45 : b = 45 := by simpa using hb
            exact this ⟨hc, hb45⟩
      · rw [dropLeadDash, if_neg hc]
        intro hb
        exact hc (by simpa using hb)

theorem mem_dropLeadDash {c : Nat} {l : Str} (h : c ∈ dropLeadDash l) : c ∈ l := by
  cases l with
  | nil => simpa [dropLeadDash] using h
  | cons a t =>
      rw [dropLeadDash] at h
      by_cases ha : a = 45
      · rw [if_pos ha] at h; exact List.mem_cons_of_mem a h
      · rwa [if_neg ha] at h

theorem mem_dropTrailDash {c : Nat} : ∀ {l : Str}, c ∈ dropTrailDash l → c ∈ l := by
  intro l
  induction l using dropTrailDash.induct with
  | case1 => simp [dropTrailDash]
  | case2 => simp [dropTrailDash]
  | case3 x hx => simp [dropTrailDash, hx]
  | case4 a b t ih =>
      intro hc
      rw [dropTrailDash] at hc
      rcases List.mem_cons.mp hc with rfl | hc
      · exact List.mem_cons_self _ _
      · exact List.mem_cons_of_mem a (ih hc)

theorem head?_dropTrailDash {c : Nat} : ∀ {l : Str},
    (dropTrailDash l).head? = some c → l.head? = some c := by
  intro l
  induction l using dropTrailDash.induct with
  | case1 => simp [dropTrailDash]
  | case2 => simp [dropTrailDash]
  | case3 x hx => simp [dropTrailDash, hx]
  | case4 a b t ih =>
      rw [dropTrailDash]
      intro hc
      simpa using hc

theorem noDoubleDash_dropTrailDash : ∀ {l : Str}, noDoubleDash l = true →
    noDoubleDash (dropTrailDash l) = true := by
  intro l
  induction l using dropTrailDash.induct with
  | case1 => intro _; rfl
  | case2 => intro _; rfl
  | case3 x hx => intro _; simp [dropTrailDash, hx, noDoubleDash]
  | case4 a b t ih =>
      intro h
      rw [dropTrailDash]
      refine noDoubleDash_cons_of (ih (noDoubleDash_tail h)) ?_
      intro x hx hc
      have hbx : (b :: t).head? = some x := head?_dropTrailDash hx
      have hb : b = x := by simpa using hbx
      exact noDoubleDash_head h ⟨hc.1, hb ▸ hc.2⟩

theorem getLast?_dropTrailDash_ne : ∀ {l : Str}, noDoubleDash l = true →
    (dropTrailDash l).getLast? ≠ some 45 := by
  intro l
  induction l using dropTrailDash.induct with
  | case1 => intro _; simp [dropTrailDash]
  | case2 => intro _; simp [dropTrailDash]
  | case3 x hx =>
      intro _
      simp only [dropTrailDash, if_neg hx, List.getLast?_singleton]
      intro hc
      exact hx (by simpa using hc)
  | case4 a b t ih =>
      intro h
      rw [dropTrailDash]
      rcases hE : dropTrailDash (b :: t) with _ | ⟨y, ys⟩
      · simp only [List.getLast?_singleton]
        cases t with
        | nil =>
            by_cases hb : b = 45
            · intro hc
              exact noDoubleDash_head h ⟨by simpa using hc, hb⟩
            · rw [dropTrailDash] at hE
              simp [hb] at hE
        | cons c2 t2 =>
            rw [dropTrailDash] at hE
            simp at hE
      · rw [List.getLast?_cons_cons, ← hE]
        exact ih (noDoubleDash_tail h)

theorem lowerCode_eq_45_iff {c : Nat} : lowerCode c = 45 ↔ c = 45 := by
  unfold lowerCode
  by_cases h : 65 ≤ c ∧ c ≤ 90
  · rw [if_pos h]; omega
  · rw [if_neg h]

theorem goodChar_lowerCode {c : Nat} (h : isAlnumCode c = true ∨ c = 45) :
    goodChar (lowerCode c) = true := by
  simp only [isAlnumCode, goodChar, lowerCode, decide_eq_true_eq] at *
  split <;> omega

theorem jsSpace_goodChar {c : Nat} (h : goodChar c = true) : jsSpace c = false := by
  simp only [goodChar, jsSpace, decide_eq_true_eq, decide_eq_false_iff_not] at *
  omega

theorem isAlnumCode_of_goodChar {c : Nat} (h : goodChar c = true) :
    isAlnumCode c = true ∨ c = 45 := by
  simp only [goodChar, isAlnumCode, decide_eq_true_eq] at *
  omega

theorem lowerCode_eq_self {c : Nat} (h : goodChar c = true) : lowerCode c = c := by
  simp only [goodChar, decide_eq_true_eq] at h
  unfold lowerCode
  rw [if_neg (by omega)]

theorem alnum_ne_45 {c : Nat} (h : isAlnumCode c = true) : c ≠ 45 := by
  simp only [isAlnumCode, decide_eq_true_eq] at h
  omega

theorem goodChar_titleToFilename_core (s : Str) :
    ∀ c ∈ List.map lowerCode (dropTrailDash (dropLeadDash (collapseDashes (dashify (jsTrim s))))),
      goodChar c = true := by
  intro c hc
  rcases List.mem_map.mp hc with ⟨a, ha, rfl⟩
  exact goodChar_lowerCode
    (mem_dashify (mem_collapseDashes (mem_dropLeadDash (mem_dropTrailDash ha))))

theorem titleToFilename_eq_core (s : Str) :
    titleToFilename s =
      List.map lowerCode (dropTrailDash (dropLeadDash (collapseDashes (dashify (jsTrim s))))) := by
  unfold titleToFilename
  exact jsTrim_eq_self (fun c hc => jsSpace_goodChar (goodChar_titleToFilename_core s c hc))

theorem noDoubleDash_map_lowerCode : ∀ {l : Str}, noDoubleDash l = true →
    noDoubleDash (List.map lowerCode l) = true := by
  intro l
  induction l with
  | nil => intro _; rfl
  | cons a t ih =>
      cases t with
      | nil => intro _; rfl
      | cons b t2 =>
          intro h
          simp only [List.map_cons]
          unfold noDoubleDash
          simp only [Bool.and_eq_true, Bool.not_eq_true']
          constructor
          · have hd := noDoubleDash_head h
            by_cases ha : a = 45
            · have hb : ¬ b = 45 := fun hb => hd ⟨ha, hb⟩
              have : ¬ lowerCode b = 45 := fun e => hb (lowerCode_eq_45_iff.mp e)
              simp [this]
            · have : ¬ lowerCode a = 45 := fun e => ha (lowerCode_eq_45_iff.mp e)
              simp [this]
          · exact ih (noDoubleDash_tail h)

theorem head?_titleToFilename_ne (s : Str) : (titleToFilename s).head? ≠ some 45 := by
  rw [titleToFilename_eq_core]
  intro hc
  rw [List.head?_map] at hc
  rcases hE : (dropTrailDash (dropLeadDash (collapseDashes (dashify (jsTrim s))))).head? with _ | c
  · rw [hE] at hc; simp at hc
  · rw [hE] at hc
    have hc45 : c = 45 := lowerCode_eq_45_iff.mp (by simpa using hc)
    have hA3 := head?_dropTrailDash hE
    exact head?_dropLeadDash_ne (noDoubleDash_collapseDashes _) (hc45 ▸ hA3)

theorem getLast?_titleToFilename_ne (s : Str) : (titleToFilename s).getLast? ≠ some 45 := by
  rw [titleToFilename_eq_core]
  intro hc
  rw [List.getLast?_map] at hc
  rcases hE : (dropTrailDash (dropLeadDash (collapseDashes (dashify (jsTrim s))))).getLast? with _ | c
  · rw [hE] at hc; simp at hc
  · rw [hE] at hc
    have hc45 : c = 45 := lowerCode_eq_45_iff.mp (by simpa using hc)
    exact getLast?_dropTrailDash_ne
      (noDoubleDash_dropLeadDash (noDoubleDash_collapseDashes _)) (hc45 ▸ hE)

theorem noDoubleDash_titleToFilename (s : Str) : noDoubleDash (titleToFilename s) = true := by
  rw [titleToFilename_eq_core]
  exact noDoubleDash_map_lowerCode
    (noDoubleDash_dropTrailDash (noDoubleDash_dropLeadDash (noDoubleDash_collapseDashes _)))

theorem map_eq_self_of {f : Nat → Nat} : ∀ {l : Str}, (∀ c ∈ l, f c = c) → List.map f l = l := by
  intro l
  induction l with
  | nil => intro _; rfl
  | cons a t ih =>
      intro h
      simp only [List.map_cons]
      rw [h a (by simp), ih (fun c hc => h c (by simp [hc]))]

theorem dashify_eq_self {l : Str} (h : ∀ c ∈ l, goodChar c = true) : dashify l = l := by
  unfold dashify
  refine map_eq_self_of ?_
  intro c hc
  rcases isAlnumCode_of_goodChar (h c hc) with ha | ha
  · rw [if_pos ha]
  · subst ha; rfl

theorem collapseDashes_eq_self : ∀ {l : Str}, noDoubleDash l = true → collapseDashes l = l := by
  intro l
  induction l using collapseDashes.induct with
  | case1 => intro _; rfl
  | case2 x => intro _; rfl
  | case3 a b rest h ih =>
      intro hnd
      exact absurd h (noDoubleDash_head hnd)
  | case4 a b rest h ih =>
      intro hnd
      rw [collapseDashes, if_neg h, ih (noDoubleDash_tail hnd)]

theorem dropLeadDash_eq_self {l : Str} (h : l.head? ≠ some 45) : dropLeadDash l = l := by
  cases l with
  | nil => rfl
  | cons c t =>
      rw [dropLeadDash, if_neg (fun hc => h (by simp [hc]))]

theorem dropTrailDash_eq_self : ∀ {l : Str}, l.getLast? ≠ some 45 → dropTrailDash l = l := by
  intro l
  induction l using dropTrailDash.induct with
  | case1 => intro _; rfl
  | case2 => intro h; exact absurd (by simp) h
  | case3 x hx => intro _; rw [dropTrailDash, if_neg hx]
  | case4 a b t ih =>
      intro h
      rw [dropTrailDash, ih (fun hc => h (by rw [List.getLast?_cons_cons]; exact hc))]

theorem titleToFilename_fixed {l : Str} (hg : ∀ c ∈ l, goodChar c = true)
    (hnd : noDoubleDash l = true) (hh : l.head? ≠ some 45) (hl : l.getLast? ≠ some 45) :
    titleToFilename l = l := by
  unfold titleToFilename
  rw [jsTrim_eq_self (fun c hc => jsSpace_goodChar (hg c hc)), dashify_eq_self hg,
    collapseDashes_eq_self hnd, dropLeadDash_eq_self hh, dropTrailDash_eq_self hl,
    map_eq_self_of (fun c hc => lowerCode_eq_self (hg c hc)),
    jsTrim_eq_self (fun c hc => jsSpace_goodChar (hg c hc))]

theorem dashify_cons (a : Nat) (l : Str) :
    dashify (a :: l) = (if isAlnumCode a then a else 45) :: dashify l := rfl

theorem replaceRuns_eq : ∀ l : Str, replaceRuns l = collapseDashes (dashify l) := by
  intro l
  induction l using replaceRuns.induct with
  | case1 => rfl
  | case2 c hc => rw [replaceRuns, if_pos hc]; simp [dashify, collapseDashes, hc]
  | case3 c hc => rw [replaceRuns, if_neg hc]; simp [dashify, collapseDashes, hc]
  | case4 a b rest ha ih =>
      have hda : dashify (a :: b :: rest) = a :: dashify (b :: rest) := by
        rw [dashify_cons, if_pos ha]
      have hane : a ≠ 45 := alnum_ne_45 ha
      by_cases hb : isAlnumCode b = true
      · have hdb : dashify (b :: rest) = b :: dashify rest := by rw [dashify_cons, if_pos hb]
        have hcond : ¬(a = 45 ∧ b = 45) := fun hc => hane hc.1
        rw [replaceRuns, if_pos ha, ih, hda, hdb, collapseDashes, if_neg hcond]
      · have hdb : dashify (b :: rest) = 45 :: dashify rest := by rw [dashify_cons, if_neg hb]
        have hcond : ¬(a = 45 ∧ (45 : Nat) = 45) := fun hc => hane hc.1
        rw [replaceRuns, if_pos ha, ih, hda, hdb, collapseDashes, if_neg hcond]
  | case5 a b rest ha hb ih =>
      have hda : dashify (a :: b :: rest) = 45 :: dashify (b :: rest) := by
        rw [dashify_cons, if_neg ha]
      have hdb : dashify (b :: rest) = b :: dashify rest := by
        rw [dashify_cons, if_pos hb]
      have hcond : ¬((45 : Nat) = 45 ∧ b = 45) := fun hc => alnum_ne_45 hb hc.2
      rw [replaceRuns, if_neg ha, if_pos hb, ih, hda, hdb, collapseDashes, if_neg hcond]
  | case6 a b rest ha hb ih =>
      have hda : dashify (a :: b :: rest) = 45 :: dashify (b :: rest) := by
        rw [dashify_cons, if_neg ha]
      have hdb : dashify (b :: rest) = 45 :: dashify rest := by
        rw [dashify_cons, if_neg hb]
      rw [replaceRuns, if_neg ha, if_neg hb, ih, hda, hdb, collapseDashes, if_pos ⟨rfl, rfl⟩]

/-- **C1.** `titleToFilename` agrees, on every input string, with the spec's
semantic description (trim; replace each maximal non-alphanumeric run by one
dash; strip one leading/trailing dash; lowercase), it is total and
deterministic by construction, and it maps the two documented examples to the
documented slugs. -/
theorem titleToFilename_matches_spec :
    (∀ s : Str, titleToFilename s = normalizeSpec s) ∧
    titleToFilename (str "Flexbox Masonry!!") = str "flexbox-masonry" ∧
    titleToFilename (str "  --Multi   Space--  ") = str "multi-space" := by
  refine ⟨fun s => ?_, by decide, by decide⟩
  rw [titleToFilename_eq_core]
  unfold normalizeSpec
  rw [replaceRuns_eq]

/-- **C2.** Every output of `titleToFilename` consists only of lowercase
letters, digits and dashes, has no two adjacent dashes, neither starts nor
ends with a dash, and `titleToFilename` is idempotent. -/
theorem titleToFilename_wellformed_idempotent :
    ∀ s : Str, ((titleToFilename s).all goodChar = true) ∧
      noDoubleDash (titleToFilename s) = true ∧
      (titleToFilename s).head? ≠ some 45 ∧
      (titleToFilename s).getLast? ≠ some 45 ∧
      titleToFilename (titleToFilename s) = titleToFilename s := by
  intro s
  have hg : ∀ c ∈ titleToFilename s, goodChar c = true := by
    rw [titleToFilename_eq_core]; exact goodChar_titleToFilename_core s
  refine ⟨List.all_eq_true.mpr hg, noDoubleDash_titleToFilename s,
    head?_titleToFilename_ne s, getLast?_titleToFilename_ne s, ?_⟩
  exact titleToFilename_fixed hg (noDoubleDash_titleToFilename s)
    (head?_titleToFilename_ne s) (getLast?_titleToFilename_ne s)


/-! ### Replace lemmas -/

theorem hasDollar_cons {c : Nat} {t : Str} :
    hasDollar (c :: t) = false ↔ ¬c = 36 ∧ hasDollar t = false := by
  simp [hasDollar]

theorem getSubstitution_no_dollar : ∀ {r : Str} {m b a : Str}, hasDollar r = false →
    getSubstitution r m b a = r := by
  intro r
  induction r with
  | nil => intro m b a _; rfl
  | cons c t ih =>
      intro m b a h
      rcases hasDollar_cons.mp h with ⟨hc, ht⟩
      cases t with
      | nil => rfl
      | cons d t2 => rw [getSubstitution, if_neg hc, ih ht]

theorem leadsWith_append_self : ∀ (n y : Str), leadsWith n (n ++ y) = true := by
  intro n y
  induction n with
  | nil => rfl
  | cons c t ih => simp [leadsWith, ih]

theorem occursIn_of_leadsWith {n h : Str} (hl : leadsWith n h = true) : occursIn n h = true := by
  cases h with
  | nil => rw [occursIn]; exact hl
  | cons c t => rw [occursIn]; simp [hl]

theorem occursIn_append_right {n y : Str} (h : occursIn n y = true) :
    ∀ x : Str, occursIn n (x ++ y) = true := by
  intro x
  induction x with
  | nil => simpa using h
  | cons c t ih => rw [List.cons_append, occursIn]; simp [ih]

theorem splitFirst_eq_none {n : Str} : ∀ {h : Str}, occursIn n h = false →
    splitFirst n h = none := by
  intro h
  induction h with
  | nil =>
      intro ho
      rw [occursIn] at ho
      simp [splitFirst, ho]
  | cons c t ih =>
      intro ho
      rw [occursIn] at ho
      simp only [Bool.or_eq_false_iff] at ho
      rw [splitFirst, if_neg (by simp [ho.1]), ih ho.2]

theorem splitFirst_self_append (n y : Str) (hn : n ≠ []) : splitFirst n (n ++ y) = some ([], y) := by
  cases n with
  | nil => exact absurd rfl hn
  | cons c nt =>
      rw [List.cons_append, splitFirst,
        if_pos (by rw [← List.cons_append]; exact leadsWith_append_self (c :: nt) y),
        ← List.cons_append, List.drop_left]

theorem splitFirst_boundary : ∀ {x : Str}, (∀ c ∈ x, c ≠ 123) → ∀ {n : Str},
    n.head? = some 123 → ∀ y : Str, splitFirst n (x ++ n ++ y) = some (x, y) := by
  intro x
  induction x with
  | nil =>
      intro _ n hn y
      have hne : n ≠ [] := by cases n with | nil => simp at hn | cons a b => simp
      simpa using splitFirst_self_append n y hne
  | cons c x2 ih =>
      intro hx n hn y
      have hc : c ≠ 123 := hx c (by simp)
      obtain ⟨n0, nt, rfl⟩ : ∃ n0 nt, n = n0 :: nt := by
        cases n with
        | nil => simp at hn
        | cons a b => exact ⟨a, b, rfl⟩
      have hn0 : n0 = 123 := by simpa using hn
      have hih := ih (fun d hd => hx d (by simp [hd])) hn y
      have hshape : (c :: x2) ++ (n0 :: nt) ++ y = c :: (x2 ++ (n0 :: nt) ++ y) := by simp
      rw [hshape, splitFirst.eq_2]
      have hlw : leadsWith (n0 :: nt) (c :: (x2 ++ (n0 :: nt) ++ y)) = false := by
        rw [leadsWith]
        have hne : ¬ n0 = c := fun e => hc (by rw [← e, hn0])
        simp [hne]
      have hlw2 : ¬ leadsWith (n0 :: nt) (c :: (x2 ++ (n0 :: nt) ++ y)) = true := by
        rw [hlw]
        exact Bool.false_ne_true
      rw [if_neg hlw2, hih]

theorem not_occursIn_of_no123 {n : Str} (hn : n.head? = some 123) :
    ∀ {h : Str}, (∀ c ∈ h, c ≠ 123) → occursIn n h = false := by
  obtain ⟨n0, nt, rfl⟩ : ∃ n0 nt, n = n0 :: nt := by
    cases n with
    | nil => simp at hn
    | cons a b => exact ⟨a, b, rfl⟩
  have hn0 : n0 = 123 := by simpa using hn
  intro h
  induction h with
  | nil => intro _; rw [occursIn]; rfl
  | cons c t ih =>
      intro hh
      have hc : c ≠ 123 := hh c (by simp)
      rw [occursIn, leadsWith]
      have : ¬ n0 = c := fun e => hc (by rw [← e, hn0])
      simp [this]
      exact ih (fun d hd => hh d (by simp [hd]))

theorem jsReplace_no_occurrence {hay n r : Str} (h : occursIn n hay = false) :
    jsReplace hay n r = hay := by
  unfold jsReplace
  rw [splitFirst_eq_none h]

theorem jsReplace_boundary {x n y r : Str} (hx : ∀ c ∈ x, c ≠ 123)
    (hn : n.head? = some 123) (hr : hasDollar r = false) :
    jsReplace (x ++ n ++ y) n r = x ++ r ++ y := by
  unfold jsReplace
  rw [splitFirst_boundary hx hn y]
  show x ++ getSubstitution r n x y ++ y = x ++ r ++ y
  rw [getSubstitution_no_dollar hr]

/-- **C7.** For every template in which a recognized token does not occur,
the corresponding substitution is a no-op: the renderer returns the template
text unchanged, and (being a total function) it never fails. -/
theorem jsReplace_absent_token_noop :
    ∀ (tpl token repl : Str), occursIn token tpl = false → jsReplace tpl token repl = tpl := by
  intro tpl token repl h
  exact jsReplace_no_occurrence h

/-- Witness for C7: `\x7b\x7bhtml\x7d\x7d` does not occur in a token-free
template, and substituting into it changes nothing. -/
theorem jsReplace_absent_token_noop_witness :
    jsReplace (str "<body>no tokens at all</body>") tokHtml (str "IGNORED") =
      str "<body>no tokens at all</body>" :=
  jsReplace_absent_token_noop (str "<body>no tokens at all</body>") tokHtml (str "IGNORED")
    (by decide)

/-- **C10.** The renderer replaces only the first occurrence of a token:
when the token occurs again after the first occurrence, the whole suffix —
including every later occurrence — is emitted literally. -/
theorem jsReplace_first_occurrence_only :
    ∀ (needle repl b mid a : Str),
      splitFirst needle (b ++ needle ++ (mid ++ needle ++ a)) = some (b, mid ++ needle ++ a) →
      hasDollar repl = false →
      jsReplace (b ++ needle ++ (mid ++ needle ++ a)) needle repl =
        b ++ repl ++ (mid ++ needle ++ a) := by
  intro needle repl b mid a h hr
  unfold jsReplace
  rw [h]
  show b ++ getSubstitution repl needle b (mid ++ needle ++ a) ++ (mid ++ needle ++ a) =
    b ++ repl ++ (mid ++ needle ++ a)
  rw [getSubstitution_no_dollar hr]

/-- Witness for C10: a template holding `\x7b\x7bhtml\x7d\x7d` twice keeps the
second occurrence verbatim after substitution. -/
theorem jsReplace_first_occurrence_only_witness :
    jsReplace (str "A" ++ tokHtml ++ (str "B" ++ tokHtml ++ str "C")) tokHtml (str "R") =
      str "A" ++ str "R" ++ (str "B" ++ tokHtml ++ str "C") :=
  jsReplace_first_occurrence_only tokHtml (str "R") (str "A") (str "B") (str "C")
    (by decide) (by decide)

/-! ### Renderer lemmas -/

theorem no123_append {x y : Str} (hx : ∀ c ∈ x, c ≠ 123) (hy : ∀ c ∈ y, c ≠ 123) :
    ∀ c ∈ x ++ y, c ≠ 123 := by
  intro c hc
  rcases List.mem_append.mp hc with h | h
  · exact hx c h
  · exact hy c h

theorem mem_jsTrim {c : Nat} {l : Str} (h : c ∈ jsTrim l) : c ∈ l := by
  unfold jsTrim at h
  rw [List.mem_reverse] at h
  have h2 : c ∈ (l.dropWhile jsSpace).reverse := (List.dropWhile_sublist _).mem h
  rw [List.mem_reverse] at h2
  exact (List.dropWhile_sublist _).mem h2

theorem no123_of_plainStr {l : Str} (h : plainStr l = true) : ∀ c ∈ l, c ≠ 123 := by
  intro c hc
  have := List.all_eq_true.mp h c hc
  simp only [plainChar, decide_eq_true_eq] at this
  exact this.1

theorem hasDollar_eq_false_of_plainStr {l : Str} (h : plainStr l = true) :
    hasDollar l = false := by
  unfold hasDollar
  rw [List.any_eq_false]
  intro c hc
  have := List.all_eq_true.mp h c hc
  simp only [plainChar, decide_eq_true_eq] at this
  simp [this.2]

theorem hasDollar_append {x y : Str} :
    hasDollar (x ++ y) = (hasDollar x || hasDollar y) := by
  simp [hasDollar]

theorem splitFirst_append_plain {x n : Str} (hx : ∀ c ∈ x, c ≠ 123)
    (hn : n.head? = some 123) :
    ∀ h : Str, splitFirst n (x ++ h) = Option.map (fun p => (x ++ p.1, p.2)) (splitFirst n h) := by
  induction x with
  | nil =>
      intro h
      simp only [List.nil_append]
      rcases splitFirst n h with _ | ⟨b, a⟩ <;> simp
  | cons c x2 ih =>
      intro h
      obtain ⟨n0, nt, rfl⟩ : ∃ n0 nt, n = n0 :: nt := by
        cases n with
        | nil => simp at hn
        | cons a b => exact ⟨a, b, rfl⟩
      have hn0 : n0 = 123 := by simpa using hn
      have hc : c ≠ 123 := hx c (by simp)
      have hlw : ¬ leadsWith (n0 :: nt) (c :: (x2 ++ h)) = true := by
        rw [leadsWith]
        have hne : ¬ n0 = c := fun e => hc (by rw [← e, hn0])
        simp [hne]
      rw [List.cons_append, splitFirst.eq_2, if_neg hlw,
        ih (fun d hd => hx d (by simp [hd])) h]
      rcases splitFirst (n0 :: nt) h with _ | ⟨b, a⟩
      · rfl
      · simp

theorem jsReplace_append_plain {x n r : Str} (hx : ∀ c ∈ x, c ≠ 123)
    (hn : n.head? = some 123) (hr : hasDollar r = false) (h : Str) :
    jsReplace (x ++ h) n r = x ++ jsReplace h n r := by
  unfold jsReplace
  rw [splitFirst_append_plain hx hn h]
  rcases splitFirst n h with _ | ⟨b, a⟩
  · rfl
  · show (x ++ b) ++ getSubstitution r n (x ++ b) a ++ a =
      x ++ (b ++ getSubstitution r n b a ++ a)
    rw [getSubstitution_no_dollar hr, getSubstitution_no_dollar hr]
    simp [List.append_assoc]

theorem jsReplace_front {n y r : Str} (hne : n ≠ []) (hr : hasDollar r = false) :
    jsReplace (n ++ y) n r = r ++ y := by
  unfold jsReplace
  rw [splitFirst_self_append n y hne]
  show [] ++ getSubstitution r n [] y ++ y = r ++ y
  rw [getSubstitution_no_dollar hr]
  simp

theorem render_first_step {s n y r : Str} (hs : ∀ c ∈ s, c ≠ 123)
    (hn : n.head? = some 123) (hne : n ≠ []) (hr : hasDollar r = false) :
    jsReplace (s ++ (n ++ y)) n r = (s ++ r) ++ y := by
  rw [jsReplace_append_plain hs hn hr, jsReplace_front hne hr]
  simp [List.append_assoc]

theorem no123_scriptTag {a : Str} (h : plainStr a = true) : ∀ c ∈ scriptTag a, c ≠ 123 := by
  unfold scriptTag
  refine no123_append (no123_append ?_ (no123_of_plainStr h)) ?_
  · decide
  · decide

theorem no123_linkTag {a : Str} (h : plainStr a = true) : ∀ c ∈ linkTag a, c ≠ 123 := by
  unfold linkTag
  refine no123_append (no123_append ?_ (no123_of_plainStr h)) ?_
  · decide
  · decide

theorem hasDollar_scriptTag {a : Str} (h : plainStr a = true) : hasDollar (scriptTag a) = false := by
  unfold scriptTag
  rw [hasDollar_append, hasDollar_append, hasDollar_eq_false_of_plainStr h]
  simp [show hasDollar (str "<script src=\"") = false from by decide,
    show hasDollar (str "\"></script>") = false from by decide]

theorem hasDollar_linkTag {a : Str} (h : plainStr a = true) : hasDollar (linkTag a) = false := by
  unfold linkTag
  rw [hasDollar_append, hasDollar_append, hasDollar_eq_false_of_plainStr h]
  simp [show hasDollar (str "<link rel=\"stylesheet\" href=\"") = false from by decide,
    show hasDollar (str "\">") = false from by decide]

theorem jsReplace_whole {n r : Str} (hne : n ≠ []) (hr : hasDollar r = false) :
    jsReplace n n r = r := by
  have h := jsReplace_front (y := ([] : Str)) hne hr
  simpa using h

/-- **C5.** External resource order is preserved and not deduplicated: the
join of the mapped tags lists the first url's tag strictly before the second
one's (10 is the newline used by the join), both for the pure block builders
and through the full renderer when the template carries the resource token. -/
theorem external_resource_order_preserved :
    (∀ a b : Str, joinNl ([a, b].map scriptTag) = scriptTag a ++ 10 :: scriptTag b) ∧
    (∀ a b : Str, joinNl ([a, b].map linkTag) = linkTag a ++ 10 :: linkTag b) ∧
    (∀ a b : Str, plainStr a = true → plainStr b = true →
      renderPen tokResJs ⟨[], []⟩ [] [a, b] [] = scriptTag a ++ 10 :: scriptTag b) ∧
    (∀ a b : Str, plainStr a = true → plainStr b = true →
      renderPen tokResCss ⟨[], []⟩ [] [] [a, b] = linkTag a ++ 10 :: linkTag b) := by
  refine ⟨fun a b => rfl, fun a b => rfl, ?_, ?_⟩
  · intro a b ha hb
    unfold renderPen
    rw [jsReplace_no_occurrence (show occursIn tokHtml tokResJs = false from by decide),
      jsReplace_no_occurrence (show occursIn tokTitle tokResJs = false from by decide),
      jsReplace_no_occurrence (show occursIn tokUrl tokResJs = false from by decide),
      jsReplace_no_occurrence (show occursIn tokStyle tokResJs = false from by decide),
      jsReplace_no_occurrence (show occursIn tokJavascript tokResJs = false from by decide)]
    have hjoin : joinNl ([a, b].map scriptTag) = scriptTag a ++ 10 :: scriptTag b := rfl
    have hb10 : hasDollar (10 :: scriptTag b) = hasDollar (scriptTag b) := by
      simp [hasDollar]
    have hrj : hasDollar (joinNl ([a, b].map scriptTag)) = false := by
      rw [hjoin, hasDollar_append, hasDollar_scriptTag ha, hb10, hasDollar_scriptTag hb]
      rfl
    rw [jsReplace_whole (by decide) hrj, hjoin]
    have hplain : ∀ c ∈ scriptTag a ++ 10 :: scriptTag b, c ≠ 123 := by
      refine no123_append (no123_scriptTag ha) ?_
      intro c hc
      rcases List.mem_cons.mp hc with rfl | hc
      · decide
      · exact no123_scriptTag hb c hc
    rw [jsReplace_no_occurrence (not_occursIn_of_no123 (by decide) hplain)]
  · intro a b ha hb
    unfold renderPen
    rw [jsReplace_no_occurrence (show occursIn tokHtml tokResCss = false from by decide),
      jsReplace_no_occurrence (show occursIn tokTitle tokResCss = false from by decide),
      jsReplace_no_occurrence (show occursIn tokUrl tokResCss = false from by decide),
      jsReplace_no_occurrence (show occursIn tokStyle tokResCss = false from by decide),
      jsReplace_no_occurrence (show occursIn tokJavascript tokResCss = false from by decide),
      jsReplace_no_occurrence (show occursIn tokResJs tokResCss = false from by decide)]
    have hjoin : joinNl ([a, b].map linkTag) = linkTag a ++ 10 :: linkTag b := rfl
    have hb10 : hasDollar (10 :: linkTag b) = hasDollar (linkTag b) := by
      simp [hasDollar]
    have hrc : hasDollar (joinNl ([a, b].map linkTag)) = false := by
      rw [hjoin, hasDollar_append, hasDollar_linkTag ha, hb10, hasDollar_linkTag hb]
      rfl
    rw [jsReplace_whole (by decide) hrc, hjoin]

/-- Witness for C5 at the documented inputs `a.js`, `b.js` (and two style urls). -/
theorem external_resource_order_preserved_witness :
    renderPen tokResJs ⟨[], []⟩ [] [str "a.js", str "b.js"] [] =
      scriptTag (str "a.js") ++ 10 :: scriptTag (str "b.js") :=
  external_resource_order_preserved.2.2.1 (str "a.js") (str "b.js") (by decide) (by decide)

/-- **C8 counterexample.** On a page whose style editor is absent but whose
script editor is present, the flat `querySelectorAll` list is `[markup,
script]`, so the script text is NOT rendered into the `javascript` slot
(which renders empty) — it lands in the `style` slot instead. -/
theorem editor_slots_counterexample :
    editorValues ⟨some (str "M"), none, some (str "S"), [], []⟩ = [str "M", str "S"] ∧
    renderPen tokJavascript ⟨str "T", str "U"⟩
      (editorValues ⟨some (str "M"), none, some (str "S"), [], []⟩) [] [] = [] ∧
    renderPen tokStyle ⟨str "T", str "U"⟩
      (editorValues ⟨some (str "M"), none, some (str "S"), [], []⟩) [] [] = str "S" := by
  refine ⟨by decide, by decide, by decide⟩

/-- **C8 (amended).** The extractor reads the editors present on the page as a
flat list in DOM order, consumed positionally by the renderer: when the style
editor is absent and the script editor present, the script text fills slot 1
(the `style` slot) if the markup editor is present — slot 2 (`javascript`)
reads empty — and slot 0 (the `html` slot) if the markup editor is absent
too. -/
theorem editorValues_flat_positional :
    ∀ (m s2 : Str) (jsR cssR : List Str),
      editorValues ⟨some m, none, some s2, jsR, cssR⟩ = [m, s2] ∧
      editorValues ⟨none, none, some s2, jsR, cssR⟩ = [s2] ∧
      (editorValues ⟨some m, none, some s2, jsR, cssR⟩).getD 1 [] = s2 ∧
      (editorValues ⟨some m, none, some s2, jsR, cssR⟩).getD 2 [] = [] ∧
      (editorValues ⟨none, none, some s2, jsR, cssR⟩).getD 0 [] = s2 := by
  intro m s2 jsR cssR
  exact ⟨rfl, rfl, rfl, rfl, rfl⟩

theorem leadsWith_mono {n : Str} : ∀ {t : Str}, leadsWith n t = true →
    ∀ B : Str, leadsWith n (t ++ B) = true := by
  induction n with
  | nil => intro t _ B; rfl
  | cons a as ih =>
      intro t h B
      cases t with
      | nil => exact absurd h (by simp [leadsWith])
      | cons b bs =>
          rw [leadsWith, Bool.and_eq_true] at h
          rw [List.cons_append, leadsWith, Bool.and_eq_true]
          exact ⟨h.1, ih h.2 B⟩

theorem leadsWith_refl (n : Str) : leadsWith n n = true := by
  have h := leadsWith_append_self n []
  rwa [List.append_nil] at h

theorem occursIn_self (n : Str) : occursIn n n = true :=
  occursIn_of_leadsWith (leadsWith_refl n)

theorem occursIn_append_left {n : Str} : ∀ {A : Str}, occursIn n A = true →
    ∀ B : Str, occursIn n (A ++ B) = true := by
  intro A
  induction A with
  | nil =>
      intro h B
      rw [occursIn] at h
      cases n with
      | nil => cases B <;> simp [occursIn, leadsWith]
      | cons c t => exact absurd h (by simp [leadsWith])
  | cons a A2 ih =>
      intro h B
      rw [occursIn, Bool.or_eq_true] at h
      rw [List.cons_append, occursIn, Bool.or_eq_true]
      rcases h with h | h
      · exact Or.inl (by rw [← List.cons_append]; exact leadsWith_mono h B)
      · exact Or.inr (ih h B)

theorem plainStr_jsTrim {l : Str} (h : plainStr l = true) : plainStr (jsTrim l) = true := by
  unfold plainStr at *
  exact List.all_eq_true.mpr (fun c hc => List.all_eq_true.mp h c (mem_jsTrim hc))

/-- **C6 counterexample.** The claim quantifies over every template; on the
template `\x7b\x7bhtml\x7d\x7d\x7b\x7bhtml\x7d\x7d` with all content fields
empty, the rendered document is `\x7b\x7bhtml\x7d\x7d` — it still contains a
`\x7b\x7b...\x7d\x7d` token and does not contain the title `XYZ`. -/
theorem renderPen_empty_fields_counterexample :
    renderPen (tokHtml ++ tokHtml) ⟨str "XYZ", str "U0"⟩ [] [] [] = tokHtml ∧
    occursIn (str "\x7b\x7b") (renderPen (tokHtml ++ tokHtml) ⟨str "XYZ", str "U0"⟩ [] [] []) =
      true ∧
    occursIn (str "XYZ") (renderPen (tokHtml ++ tokHtml) ⟨str "XYZ", str "U0"⟩ [] [] []) =
      false := by
  exact ⟨by decide, by decide, by decide⟩

/-- **C6 (amended).** For templates in which each recognized token occurs
exactly once, in the source's substitution order, with all other template
text free of `\x7b` and `$`, and for titles and urls free of `\x7b` and `$`:
rendering with all content fields empty yields exactly the template text with
the content tokens replaced by the empty string (never an `undefined`-like
marker), the trimmed title and the url substituted; the result contains no
`\x7b\x7b` token text and contains the trimmed title and the url verbatim. -/
theorem renderPen_empty_fields_canonical :
    ∀ (s0 s1 s2 s3 s4 s5 s6 s7 title url : Str),
      plainStr s0 = true → plainStr s1 = true → plainStr s2 = true → plainStr s3 = true →
      plainStr s4 = true → plainStr s5 = true → plainStr s6 = true → plainStr s7 = true →
      plainStr title = true → plainStr url = true →
      renderPen
        (s0 ++ (tokHtml ++ (s1 ++ (tokTitle ++ (s2 ++ (tokUrl ++ (s3 ++ (tokStyle ++
          (s4 ++ (tokJavascript ++ (s5 ++ (tokResJs ++ (s6 ++ (tokResCss ++ s7))))))))))))))
        ⟨title, url⟩ [] [] [] =
        s0 ++ s1 ++ jsTrim title ++ s2 ++ url ++ s3 ++ s4 ++ s5 ++ s6 ++ s7 ∧
      (∀ c ∈ s0 ++ s1 ++ jsTrim title ++ s2 ++ url ++ s3 ++ s4 ++ s5 ++ s6 ++ s7, c ≠ 123) ∧
      occursIn (jsTrim title)
        (s0 ++ s1 ++ jsTrim title ++ s2 ++ url ++ s3 ++ s4 ++ s5 ++ s6 ++ s7) = true ∧
      occursIn url
        (s0 ++ s1 ++ jsTrim title ++ s2 ++ url ++ s3 ++ s4 ++ s5 ++ s6 ++ s7) = true := by
  intro s0 s1 s2 s3 s4 s5 s6 s7 title url h0 h1 h2 h3 h4 h5 h6 h7 ht hu
  have n0 := no123_of_plainStr h0
  have n1 := no123_of_plainStr h1
  have n2 := no123_of_plainStr h2
  have n3 := no123_of_plainStr h3
  have n4 := no123_of_plainStr h4
  have n5 := no123_of_plainStr h5
  have n6 := no123_of_plainStr h6
  have n7 := no123_of_plainStr h7
  have ntt : ∀ c ∈ jsTrim title, c ≠ 123 := no123_of_plainStr (plainStr_jsTrim ht)
  have nu := no123_of_plainStr hu
  refine ⟨?_, ?_, ?_, ?_⟩
  · unfold renderPen
    rw [render_first_step n0 (by decide) (by decide) (by decide)]
    rw [← List.append_assoc]
    rw [render_first_step (no123_append (no123_append n0 (by decide)) n1) (by decide) (by decide)
      (hasDollar_eq_false_of_plainStr (plainStr_jsTrim ht))]
    rw [← List.append_assoc]
    rw [render_first_step
      (no123_append (no123_append (no123_append (no123_append n0 (by decide)) n1) ntt) n2)
      (by decide) (by decide) (hasDollar_eq_false_of_plainStr hu)]
    rw [← List.append_assoc]
    rw [render_first_step
      (no123_append (no123_append (no123_append (no123_append (no123_append (no123_append
        n0 (by decide)) n1) ntt) n2) nu) n3)
      (by decide) (by decide) (by decide)]
    rw [← List.append_assoc]
    rw [render_first_step
      (no123_append (no123_append (no123_append (no123_append (no123_append (no123_append
        (no123_append (no123_append n0 (by decide)) n1) ntt) n2) nu) n3) (by decide)) n4)
      (by decide) (by decide) (by decide)]
    rw [← List.append_assoc]
    rw [render_first_step
      (no123_append (no123_append (no123_append (no123_append (no123_append (no123_append
        (no123_append (no123_append (no123_append (no123_append n0 (by decide)) n1) ntt) n2)
        nu) n3) (by decide)) n4) (by decide)) n5)
      (by decide) (by decide) (by decide)]
    rw [← List.append_assoc]
    rw [render_first_step
      (no123_append (no123_append (no123_append (no123_append (no123_append (no123_append
        (no123_append (no123_append (no123_append (no123_append (no123_append (no123_append
        n0 (by decide)) n1) ntt) n2) nu) n3) (by decide)) n4) (by decide)) n5) (by decide)) n6)
      (by decide) (by decide) (by decide)]
    simp [List.append_assoc, joinNl]
  · intro c hc
    simp only [List.append_assoc, List.mem_append] at hc
    rcases hc with h | h | h | h | h | h | h | h | h | h
    · exact n0 c h
    · exact n1 c h
    · exact ntt c h
    · exact n2 c h
    · exact nu c h
    · exact n3 c h
    · exact n4 c h
    · exact n5 c h
    · exact n6 c h
    · exact n7 c h
  · have h1 : occursIn (jsTrim title) ((s0 ++ s1) ++ jsTrim title) = true :=
      occursIn_append_right (occursIn_self (jsTrim title)) (s0 ++ s1)
    have h2 := occursIn_append_left (occursIn_append_left (occursIn_append_left
      (occursIn_append_left (occursIn_append_left (occursIn_append_left
      (occursIn_append_left h1 s2) url) s3) s4) s5) s6) s7
    simpa [List.append_assoc] using h2
  · have h1 : occursIn url ((((s0 ++ s1) ++ jsTrim title) ++ s2) ++ url) = true :=
      occursIn_append_right (occursIn_self url) (((s0 ++ s1) ++ jsTrim title) ++ s2)
    have h2 := occursIn_append_left (occursIn_append_left (occursIn_append_left
      (occursIn_append_left (occursIn_append_left h1 s3) s4) s5) s6) s7
    simpa [List.append_assoc] using h2

/-! ### Trim idempotence (needed for the index anchors) -/

theorem head?_dropWhile_not {p : Nat → Bool} : ∀ {l : Str} {c : Nat},
    (l.dropWhile p).head? = some c → p c = false := by
  intro l
  induction l with
  | nil => intro c h; simp at h
  | cons a t ih =>
      intro c h
      rw [List.dropWhile_cons] at h
      by_cases hp : p a = true
      · rw [if_pos hp] at h; exact ih h
      · rw [if_neg hp] at h
        have hac : a = c := by simpa using h
        rw [← hac]
        simpa using hp

theorem getLast?_dropWhile {p : Nat → Bool} : ∀ l : Str,
    l.dropWhile p = [] ∨ (l.dropWhile p).getLast? = l.getLast? := by
  intro l
  induction l with
  | nil => left; rfl
  | cons a t ih =>
      rw [List.dropWhile_cons]
      by_cases hp : p a = true
      · rw [if_pos hp]
        by_cases hE : t.dropWhile p = []
        · left; exact hE
        · right
          rcases ih with h | h
          · exact absurd h hE
          · rw [h]
            cases t with
            | nil => exact absurd (by rfl) hE
            | cons b t2 => rw [List.getLast?_cons_cons]
      · rw [if_neg hp]
        right
        rfl

theorem ends_not_space_of_jsTrim (l : Str) :
    (∀ c, (jsTrim l).head? = some c → jsSpace c = false) ∧
    (∀ c, (jsTrim l).getLast? = some c → jsSpace c = false) := by
  unfold jsTrim
  constructor
  · intro c hc
    rw [List.head?_reverse] at hc
    rcases getLast?_dropWhile (p := jsSpace) (l.dropWhile jsSpace).reverse with h | h
    · rw [h] at hc; simp at hc
    · rw [h, List.getLast?_reverse] at hc
      exact head?_dropWhile_not hc
  · intro c hc
    rw [List.getLast?_reverse] at hc
    exact head?_dropWhile_not hc

theorem jsTrim_eq_self_of_ends {l : Str}
    (hh : ∀ c, l.head? = some c → jsSpace c = false)
    (hl : ∀ c, l.getLast? = some c → jsSpace c = false) : jsTrim l = l := by
  unfold jsTrim
  have h1 : l.dropWhile jsSpace = l := by
    cases l with
    | nil => rfl
    | cons a t =>
        rw [List.dropWhile_cons, if_neg (by simp [hh a rfl])]
  rw [h1]
  have h2 : l.reverse.dropWhile jsSpace = l.reverse := by
    cases hE : l.reverse with
    | nil => rfl
    | cons a t =>
        have ha : l.getLast? = some a := by rw [← List.head?_reverse, hE]; rfl
        rw [List.dropWhile_cons, if_neg (by simp [hl a ha])]
  rw [h2, List.reverse_reverse]

theorem jsTrim_idem (l : Str) : jsTrim (jsTrim l) = jsTrim l :=
  jsTrim_eq_self_of_ends (ends_not_space_of_jsTrim l).1 (ends_not_space_of_jsTrim l).2

theorem titleToFilename_jsTrim (s : Str) : titleToFilename (jsTrim s) = titleToFilename s := by
  unfold titleToFilename
  rw [jsTrim_idem]

/-! ### Pipeline lemmas -/

theorem readFS_writeFileSync_self : ∀ (fs : FS) (k v : Str),
    readFS (writeFileSync fs k v) k = some v := by
  intro fs k v
  induction fs with
  | nil => simp [writeFileSync, readFS]
  | cons e t ih =>
      rw [writeFileSync]
      by_cases he : e.fst = k
      · rw [if_pos he, readFS, if_pos rfl]
      · rw [if_neg he, readFS, if_neg he, ih]

theorem existsSync_writeFileSync_self : ∀ (fs : FS) (k v : Str),
    existsSync (writeFileSync fs k v) k = true := by
  intro fs k v
  induction fs with
  | nil => simp [writeFileSync, existsSync]
  | cons e t ih =>
      rw [writeFileSync]
      by_cases he : e.fst = k
      · rw [if_pos he, existsSync]
        simp
      · rw [if_neg he, existsSync, ih]
        simp

theorem indexList_snoc (xs : List PenRef) (p : PenRef) :
    indexList (xs ++ [p]) = indexList xs ++ anchorFor p := by
  unfold indexList
  rw [List.foldl_append]
  rfl

/-- Witness for C6 at a concrete canonical template. -/
theorem renderPen_empty_fields_canonical_witness :
    renderPen
      (str "<html>" ++ (tokHtml ++ (str "<h1>" ++ (tokTitle ++ (str "</h1><a href=" ++ (tokUrl ++
        (str "><style>" ++ (tokStyle ++ (str "</style>" ++ (tokJavascript ++ (str "<hr>" ++
        (tokResJs ++ (str "|" ++ (tokResCss ++ str "</html>"))))))))))))))
      ⟨str " My Pen ", str "https://e.x/p"⟩ [] [] [] =
      str "<html>" ++ str "<h1>" ++ jsTrim (str " My Pen ") ++ str "</h1><a href=" ++
        str "https://e.x/p" ++ str "><style>" ++ str "</style>" ++ str "<hr>" ++ str "|" ++
        str "</html>" :=
  (renderPen_empty_fields_canonical (str "<html>") (str "<h1>") (str "</h1><a href=")
    (str "><style>") (str "</style>") (str "<hr>") (str "|") (str "</html>")
    (str " My Pen ") (str "https://e.x/p")
    (by decide) (by decide) (by decide) (by decide) (by decide) (by decide) (by decide)
    (by decide) (by decide) (by decide)).1

/-- **C3.** When `<pensPath><slug>.html` already exists at processing time,
`downloadStep` changes neither the filesystem nor the navigation log — no
extraction happens — yet the pen is appended to the collection, and the
regenerated index file contains its anchor. -/
theorem skip_existing_pen :
    ∀ (site : Str → PenPage) (penTemplate indexTemplate pensPath : Str) (st : RunState)
      (pen : PenRef) (b a : Str),
      existsSync st.fs (pensPath ++ (titleToFilename pen.title ++ str ".html")) = true →
      splitFirst tokList indexTemplate = some (b, a) →
      hasDollar (indexList (st.pens ++ [pen])) = false →
      downloadStep site penTemplate pensPath st pen = { st with pens := st.pens ++ [pen] } ∧
      occursIn (anchorFor pen) (indexList (st.pens ++ [pen])) = true ∧
      readFS (saveIndex (downloadStep site penTemplate pensPath st pen).pens pensPath
          indexTemplate (downloadStep site penTemplate pensPath st pen).fs)
        (pensPath ++ str "index.html") =
        some (b ++ indexList (st.pens ++ [pen]) ++ a) ∧
      occursIn (anchorFor pen) (b ++ indexList (st.pens ++ [pen]) ++ a) = true := by
  intro site penTemplate indexTemplate pensPath st pen b a hex hsplit hdollar
  have hstep : downloadStep site penTemplate pensPath st pen =
      { st with pens := st.pens ++ [pen] } := by
    simp only [downloadStep]
    rw [if_pos hex]
  have hanchor : occursIn (anchorFor pen) (indexList (st.pens ++ [pen])) = true := by
    rw [indexList_snoc]
    exact occursIn_append_right (occursIn_self (anchorFor pen)) (indexList st.pens)
  refine ⟨hstep, hanchor, ?_, ?_⟩
  · rw [hstep]
    show readFS (saveIndex (st.pens ++ [pen]) pensPath indexTemplate st.fs)
      (pensPath ++ str "index.html") = _
    unfold saveIndex
    rw [readFS_writeFileSync_self]
    unfold jsReplace
    rw [hsplit]
    show some (b ++ getSubstitution (indexList (st.pens ++ [pen])) tokList b a ++ a) = _
    rw [getSubstitution_no_dollar hdollar]
  · exact occursIn_append_left (occursIn_append_right hanchor b) a

/-- Witness for C3: the slug file is already on disk, so the step only
appends the pen to the collection. -/
theorem skip_existing_pen_witness :
    downloadStep siteW tokTitle (str "pens/")
      ⟨[(str "pens/my-pen.html", str "X")], [], []⟩ ⟨str "My Pen!", str "u"⟩ =
      ⟨[(str "pens/my-pen.html", str "X")], [⟨str "My Pen!", str "u"⟩], []⟩ :=
  (skip_existing_pen siteW tokTitle (str "[" ++ (tokList ++ str "]")) (str "pens/")
    ⟨[(str "pens/my-pen.html", str "X")], [], []⟩ ⟨str "My Pen!", str "u"⟩
    (str "[") (str "]") (by decide) (by decide) (by decide)).1

set_option maxRecDepth 40000 in
/-- **C4.** `saveIndex` fully overwrites the index file from the entire
accumulated collection, whatever the previous filesystem contents; and the
concrete two-page run (3 pens then 2 pens, distinct slugs, empty initial
directory) leaves exactly the five pen files plus `index.html`, whose content
lists all five anchors in encounter order. -/
theorem index_rewritten_full :
    (∀ (pens : List PenRef) (pensPath indexTemplate : Str) (fs : FS),
      readFS (saveIndex pens pensPath indexTemplate fs) (pensPath ++ str "index.html") =
        some (jsReplace indexTemplate tokList (indexList pens))) ∧
    (run siteW tokTitle tokList (str "pens/")
        [[⟨str "a", str "u1"⟩, ⟨str "b", str "u2"⟩, ⟨str "c", str "u3"⟩],
         [⟨str "d", str "u4"⟩, ⟨str "e", str "u5"⟩]] ⟨[], [], []⟩).fs.map Prod.fst =
      [str "pens/a.html", str "pens/b.html", str "pens/c.html", str "pens/index.html",
       str "pens/d.html", str "pens/e.html"] ∧
    readFS (run siteW tokTitle tokList (str "pens/")
        [[⟨str "a", str "u1"⟩, ⟨str "b", str "u2"⟩, ⟨str "c", str "u3"⟩],
         [⟨str "d", str "u4"⟩, ⟨str "e", str "u5"⟩]] ⟨[], [], []⟩).fs
      (str "pens/index.html") =
      some (anchorFor ⟨str "a", str "u1"⟩ ++ anchorFor ⟨str "b", str "u2"⟩ ++
        anchorFor ⟨str "c", str "u3"⟩ ++ anchorFor ⟨str "d", str "u4"⟩ ++
        anchorFor ⟨str "e", str "u5"⟩) := by
  refine ⟨?_, by decide, by decide⟩
  intro pens pensPath indexTemplate fs
  unfold saveIndex
  rw [readFS_writeFileSync_self]

/-- **C9.** Two pens with different titles but the same slug, processed in one
run over an empty slot: the first is extracted and written; the second is
skipped (no navigation, no write) because the first pen's file now exists —
yet both are appended, the index gets one anchor per reference without
deduplication, and the second anchor's href is the first pen's slug file. -/
theorem duplicate_slug_within_run :
    ∀ (site : Str → PenPage) (penTemplate pensPath : Str) (st : RunState) (t1 u1 t2 u2 : Str),
      titleToFilename t2 = titleToFilename t1 →
      existsSync st.fs (pensPath ++ (titleToFilename t1 ++ str ".html")) = false →
      (download site penTemplate pensPath [⟨t1, u1⟩, ⟨t2, u2⟩] st).pens =
        st.pens ++ [⟨t1, u1⟩, ⟨t2, u2⟩] ∧
      (download site penTemplate pensPath [⟨t1, u1⟩, ⟨t2, u2⟩] st).navs = st.navs ++ [u1] ∧
      (download site penTemplate pensPath [⟨t1, u1⟩, ⟨t2, u2⟩] st).fs =
        writeFileSync st.fs (pensPath ++ (titleToFilename t1 ++ str ".html"))
          (renderPen penTemplate ⟨t1, u1⟩ (editorValues (site u1))
            (collectResources (site u1).jsResourceInputs)
            (collectResources (site u1).cssResourceInputs)) ∧
      indexList (st.pens ++ [⟨t1, u1⟩, ⟨t2, u2⟩]) =
        indexList st.pens ++ anchorFor ⟨t1, u1⟩ ++ anchorFor ⟨t2, u2⟩ ∧
      anchorFor ⟨t2, u2⟩ =
        str "<a href=\"" ++ titleToFilename t1 ++ str ".html\" target=\"iframe\">" ++
          jsTrim t2 ++ str "</a>" := by
  intro site penTemplate pensPath st t1 u1 t2 u2 hslug hex
  have h1 : downloadStep site penTemplate pensPath st ⟨t1, u1⟩ =
      ⟨writeFileSync st.fs (pensPath ++ (titleToFilename t1 ++ str ".html"))
          (renderPen penTemplate ⟨t1, u1⟩ (editorValues (site u1))
            (collectResources (site u1).jsResourceInputs)
            (collectResources (site u1).cssResourceInputs)),
        st.pens ++ [⟨t1, u1⟩], st.navs ++ [u1]⟩ := by
    simp only [downloadStep]
    rw [if_neg (by simp [hex])]
  have hkey : (pensPath ++ (titleToFilename t2 ++ str ".html")) =
      (pensPath ++ (titleToFilename t1 ++ str ".html")) := by rw [hslug]
  have hdl : download site penTemplate pensPath [⟨t1, u1⟩, ⟨t2, u2⟩] st =
      downloadStep site penTemplate pensPath
        (downloadStep site penTemplate pensPath st ⟨t1, u1⟩) ⟨t2, u2⟩ := rfl
  have h2 : download site penTemplate pensPath [⟨t1, u1⟩, ⟨t2, u2⟩] st =
      ⟨writeFileSync st.fs (pensPath ++ (titleToFilename t1 ++ str ".html"))
          (renderPen penTemplate ⟨t1, u1⟩ (editorValues (site u1))
            (collectResources (site u1).jsResourceInputs)
            (collectResources (site u1).cssResourceInputs)),
        st.pens ++ [⟨t1, u1⟩, ⟨t2, u2⟩], st.navs ++ [u1]⟩ := by
    rw [hdl, h1]
    simp only [downloadStep]
    rw [if_pos (by rw [hkey]; exact existsSync_writeFileSync_self st.fs _ _)]
    simp
  refine ⟨by rw [h2], by rw [h2], by rw [h2], ?_, ?_⟩
  · have : st.pens ++ [⟨t1, u1⟩, ⟨t2, u2⟩] = (st.pens ++ [⟨t1, u1⟩]) ++ [⟨t2, u2⟩] := by simp
    rw [this, indexList_snoc, indexList_snoc]
  · unfold anchorFor
    rw [titleToFilename_jsTrim, hslug]

/-- Witness for C9: the second pen with a colliding slug is never navigated. -/
theorem duplicate_slug_within_run_witness :
    (download siteW tokTitle (str "pens/")
      [⟨str "Foo Bar", str "u1"⟩, ⟨str "foo--bar!", str "u2"⟩] ⟨[], [], []⟩).navs =
      [] ++ [str "u1"] :=
  (duplicate_slug_within_run siteW tokTitle (str "pens/") ⟨[], [], []⟩
    (str "Foo Bar") (str "u1") (str "foo--bar!") (str "u2") (by decide) (by decide)).2.1
